import Mathlib

/-!
Verification of the `plc-diff` streaming XML transformation tool.

The development shallowly embeds the Rust sources:
  * `src/lib.rs`     — event/tag model, visitor driver (`process_file`), GUID interner
  * `src/grafcet.rs` — control-flow (Grafcet) graph builder
  * `src/bin/plc-textconv.rs` — the two-pass transformation pipeline
  * `src/main.rs`    — the single-pass variant's whitespace normalizer

Byte strings are modelled as `List Char` (ASCII-faithful), hash maps as
association lists (the program only performs key lookups and inserts, never
iterates, so association lists are observationally equivalent), Rust panics
(`assert!`, slice-index panics, `expect`) and `bail!` as `Except.error`.
-/

set_option maxRecDepth 4000

namespace PlcDiff

/-- Byte-string content, modelled as a list of characters. -/
abbrev Bytes := List Char

/-- Shorthand turning a string literal into modelled bytes. -/
def bs (s : String) : Bytes := s.data

/-- Association-list lookup returning the first matching value
(models `HashMap::get`; newest entries are consed at the front). -/
def lookupA {β : Type} : List (Bytes × β) → Bytes → Option β
  | [], _ => Option.none
  | (k, v) :: rest, key => if k = key then some v else lookupA rest key

/-- Association-list insert that shadows earlier entries (models `HashMap::insert`). -/
def insertA {β : Type} (m : List (Bytes × β)) (k : Bytes) (v : β) : List (Bytes × β) :=
  (k, v) :: m

/-- `CurrentTag` from `src/lib.rs`: classification of the innermost open tag. -/
inductive CurrentTag where
  | address
  | id
  | toT
  | fromT
  | grafcetNodeStep
  | grafcetOrFork
  | grafcetOrJunction
  | grafcetTransition
  | instructionLine
  | instructionLineEntity
  | mainComment
  | name
  | ladderElements
  | rungEntity
  | symbol
  | other
  | none
  deriving DecidableEq

/-- `impl From<&[u8]> for CurrentTag` from `src/lib.rs`. -/
def CurrentTag.ofTag (tag : Bytes) : CurrentTag :=
  if tag = bs "Address" then .address
  else if tag = bs "Id" then .id
  else if tag = bs "From" then .fromT
  else if tag = bs "To" then .toT
  else if tag = bs "GrafcetNodeStep" then .grafcetNodeStep
  else if tag = bs "GrafcetOrFork" then .grafcetOrFork
  else if tag = bs "GrafcetOrJunction" then .grafcetOrJunction
  else if tag = bs "GrafcetTransition" then .grafcetTransition
  else if tag = bs "InstructionLine" then .instructionLine
  else if tag = bs "InstructionLineEntity" then .instructionLineEntity
  else if tag = bs "LadderElements" then .ladderElements
  else if tag = bs "MainComment" then .mainComment
  else if tag = bs "Name" then .name
  else if tag = bs "RungEntity" then .rungEntity
  else if tag = bs "Symbol" then .symbol
  else .other

/-- Structural events of the token stream (`quick_xml::events::Event`).
`otherEv` stands for the remaining variants (comments, CData, declarations…)
which every visitor treats with a catch-all arm. -/
inductive XmlEvent where
  | start (tag : Bytes) (attrs : List (Bytes × Bytes))
  | close (tag : Bytes)
  | text (content : Bytes)
  | eof
  | otherEv
  deriving DecidableEq

/-- `VisitProcessing` from `src/lib.rs`. -/
inductive VisitProc where
  | cont (e : XmlEvent)
  | nextNode
  deriving DecidableEq

/-- Rust `Guid` construction (`TryFrom<&BytesText>` with an `ArrayVec<u8, 36>`):
fails when the text exceeds 36 bytes. -/
def guidOfText (txt : Bytes) : Except String Bytes :=
  if txt.length ≤ 36 then .ok txt else .error "GUID didn't fit into array"

/-- The event-loop driver `process_file` from `src/lib.rs`, parametric in the
(already composed) visitor chain `step`.  The current tag is recomputed from
the raw event: element-open and element-close set it, and it is reset to
`none` immediately after a close has been dispatched to all visitors.
Processing stops once the end-of-stream event has been dispatched. -/
def driver {σ : Type} (step : σ → XmlEvent → CurrentTag → Except String σ) :
    σ → CurrentTag → List XmlEvent → Except String σ
  | s, _, [] => .ok s
  | s, ct, ev :: rest =>
    let ct1 := match ev with
      | .start tag _ => CurrentTag.ofTag tag
      | .close tag => CurrentTag.ofTag tag
      | _ => ct
    match step s ev ct1 with
    | .error e => .error e
    | .ok s' =>
      match ev with
      | .eof => .ok s'
      | .close _ => driver step s' .none rest
      | _ => driver step s' ct1 rest

/-- Whether an `Except` result is the error case. -/
def isError {α : Type} : Except String α → Bool
  | .error _ => true
  | .ok _ => false

/-- Decidable equality of `Except` results, so that concrete runs can be
checked by `decide`. -/
instance {ε α : Type} [DecidableEq ε] [DecidableEq α] : DecidableEq (Except ε α) := fun a b =>
  match a, b with
  | .ok x, .ok y =>
    if h : x = y then .isTrue (by rw [h]) else .isFalse (fun hc => h (Except.ok.inj hc))
  | .ok _, .error _ => .isFalse (fun hc => Except.noConfusion hc)
  | .error _, .ok _ => .isFalse (fun hc => Except.noConfusion hc)
  | .error e, .error f =>
    if h : e = f then .isTrue (by rw [h]) else .isFalse (fun hc => h (Except.error.inj hc))

/-! ## Control-flow graph builder (`src/grafcet.rs`) -/

/-- `GrafcetNode`: a control node with its incoming (`from'`) and outgoing
(`to`) reference lists.  (`from` is a Lean keyword, hence the prime.) -/
structure GrafcetNode where
  id : Bytes
  from' : List Bytes
  to' : List Bytes
  deriving DecidableEq

/-- `Default for GrafcetNode`. -/
def GrafcetNode.dflt : GrafcetNode := { id := [], from' := [], to' := [] }

/-- `GrafcetNode::uniq_triple`. -/
def uniq_triple (n : GrafcetNode) : Option (Bytes × Bytes × Bytes) :=
  if n.from'.length = 1 ∧ n.to'.length = 1 then
    some (n.from'.headD [], n.id, n.to'.headD [])
  else
    Option.none

/-- The node-classified tags counted by `GrafcetCounter::process_current_tag`. -/
def isGrafcetNodeTag : CurrentTag → Bool
  | .grafcetNodeStep | .grafcetTransition | .grafcetOrFork | .grafcetOrJunction => true
  | _ => false

/-- `GrafcetCounter::process_current_tag`: bump the counter on node tags and
report whether the tag was node-classified. -/
def process_current_tag (c : Nat) (ct : CurrentTag) : Nat × Bool :=
  if isGrafcetNodeTag ct then (c + 1, true) else (c, false)

/-- State of `GrafcetTracer`. -/
structure GTState where
  nodes : List (Bytes × GrafcetNode)
  sequence : List Bytes
  counter : Nat
  new_node : Nat × GrafcetNode
  current_depth : Nat
  deriving DecidableEq

/-- `Default for GrafcetTracer`. -/
def initGT : GTState :=
  { nodes := [], sequence := [], counter := 0,
    new_node := (0, GrafcetNode.dflt), current_depth := 0 }

/-- `GrafcetTracer::visit` from `src/grafcet.rs`.  The `bail!` on inconsistent
depth bookkeeping and the fan-in/fan-out `assert!` both become `Except.error`
(a Rust panic aborts the pass just like the propagated error). -/
def grafcetVisit (s : GTState) (ev : XmlEvent) (ct : CurrentTag) :
    Except String (GTState × VisitProc) :=
  match ev with
  | .text txt =>
    match ct with
    | .id =>
      match guidOfText txt with
      | .error e => .error e
      | .ok g =>
        .ok ({ s with new_node := (s.current_depth, { s.new_node.snd with id := g }) },
             .cont ev)
    | .toT =>
      match guidOfText txt with
      | .error e => .error e
      | .ok g =>
        .ok ({ s with new_node :=
                 (s.new_node.fst, { s.new_node.snd with to' := s.new_node.snd.to' ++ [g] }) },
             .cont ev)
    | .fromT =>
      match guidOfText txt with
      | .error e => .error e
      | .ok g =>
        .ok ({ s with new_node :=
                 (s.new_node.fst, { s.new_node.snd with from' := s.new_node.snd.from' ++ [g] }) },
             .cont ev)
    | _ => .ok (s, .cont ev)
  | .start _ _ => .ok ({ s with current_depth := s.current_depth + 1 }, .cont ev)
  | .close _ =>
    if s.current_depth + 1 < s.new_node.fst then
      .error "Failed to generate grafcet trace"
    else
      let (cnt, isNode) := process_current_tag s.counter ct
      if isNode then
        if s.new_node.snd.from'.length = 1 ∨ s.new_node.snd.to'.length = 1 then
          let node := s.new_node.snd
          .ok ({ s with counter := cnt,
                        sequence := s.sequence ++ [node.id],
                        nodes := insertA s.nodes node.id node,
                        new_node := (0, GrafcetNode.dflt),
                        current_depth := s.current_depth - 1 },
               .cont ev)
        else
          .error "assertion failed: from or to must be unique"
      else
        .ok ({ s with counter := cnt, current_depth := s.current_depth - 1 }, .cont ev)
  | _ => .ok (s, .cont ev)

/-- Running the builder alone under the driver (state projection of the visitor). -/
def grafcetStep (s : GTState) (ev : XmlEvent) (ct : CurrentTag) : Except String GTState :=
  match grafcetVisit s ev ct with
  | .error e => .error e
  | .ok (s', _) => .ok s'

/-- The Collection-Pass run of the graph builder over a raw event stream. -/
def runGrafcet (evs : List XmlEvent) : Except String GTState :=
  driver grafcetStep initGT .none evs

/-- Concrete builder state closing a fork node with 1 incoming and 3 outgoing
references, the recorded open-depth consistent with the close. -/
def node13State : GTState :=
  { initGT with
    new_node := (1, { id := bs "n1", from' := [bs "a"], to' := [bs "b", bs "c", bs "d"] }),
    current_depth := 1 }

/-- Concrete builder state closing a node with 2 incoming and 2 outgoing references. -/
def node22State : GTState :=
  { initGT with
    new_node := (1, { id := bs "n2", from' := [bs "a", bs "b"], to' := [bs "c", bs "d"] }),
    current_depth := 1 }

/-- Event stream in which an `Id` text is recorded at depth 1 but the enclosing
node-classified element closes at depth 2: the recorded open-depth does not
match the close depth, yet `GrafcetTracer` accepts the node. -/
def c7Events : List XmlEvent :=
  [ .start (bs "Id") [], .text (bs "gid-a"), .close (bs "Id"),
    .start (bs "Outer") [],
    .start (bs "GrafcetTransition") [],
    .start (bs "From") [], .text (bs "gf"), .close (bs "From"),
    .start (bs "To") [], .text (bs "gt"), .close (bs "To"),
    .close (bs "GrafcetTransition"),
    .close (bs "Outer"), .eof ]

/-- The prefix of `c7Events` up to (excluding) the transition-element close. -/
def c7Prefix : List XmlEvent := c7Events.take 11

/-- Probe: recorded open-depth and current depth of the builder just before the
transition element closes in `c7Events`. -/
def c7Probe : Except String (Nat × Nat) :=
  (runGrafcet c7Prefix).map fun s => (s.new_node.fst, s.current_depth)

/-- Probe: whether the whole `c7Events` run errors, and the accepted node's
identifier lookup in the final node table. -/
def c7FinalProbe : Except String (Option GrafcetNode) :=
  (runGrafcet c7Events).map fun s => lookupA s.nodes (bs "gid-a")

/-! ## Identifier interner (`GuidMap` in `src/lib.rs`) -/

/-- State of `GuidMap`: the table and the last assigned integer. -/
structure GuidMapS where
  map : List (Bytes × Nat)
  next : Nat
  deriving DecidableEq

/-- `GuidMap::new`. -/
def initGuidMap : GuidMapS := { map := [], next := 0 }

/-- `GuidMap::get_or_insert`: return the mapped integer when the identifier was
already seen, otherwise assign `next + 1` (after the bounded-length GUID
conversion, which can fail) and record the new pair.  Entries are appended in
insertion order; the Rust `HashMap` is only ever queried by key. -/
def get_or_insert (s : GuidMapS) (txt : Bytes) : Except String (GuidMapS × Nat) :=
  match lookupA s.map txt with
  | some id => .ok (s, id)
  | Option.none =>
    match guidOfText txt with
    | .error e => .error e
    | .ok g => .ok ({ map := s.map ++ [(g, s.next + 1)], next := s.next + 1 }, s.next + 1)

/-- A sequence of `get_or_insert` calls within one pass, outputs collected. -/
def runInterner (s : GuidMapS) : List Bytes → Except String (GuidMapS × List Nat)
  | [] => .ok (s, [])
  | t :: rest =>
    match get_or_insert s t with
    | .error e => .error e
    | .ok (s', v) =>
      match runInterner s' rest with
      | .error e => .error e
      | .ok (s'', vs) => .ok (s'', v :: vs)

/-- Zero-based rank of the first occurrence of `a` in `l` (`l.length` when absent). -/
def rankIn : List Bytes → Bytes → Nat
  | [], _ => 0
  | x :: rest, a => if x = a then 0 else rankIn rest a + 1

/-- First-seen distinct elements of `l`, appended in encounter order after `seen`. -/
def seenFold (seen : List Bytes) (l : List Bytes) : List Bytes :=
  l.foldl (fun acc t => if t ∈ acc then acc else acc ++ [t]) seen

/-- The interner table that holds `seen` in first-seen order with the
consecutive integers `k, k + 1, …` as values. -/
def mapOf : List Bytes → Nat → List (Bytes × Nat)
  | [], _ => []
  | t :: rest, k => (t, k) :: mapOf rest (k + 1)

/-- Concrete call sequence for the interner: a repeated identifier among fresh ones. -/
def c4Txts : List Bytes := [bs "idA", bs "idB", bs "idA"]

/-! ## Instruction-line text normalizer (`src/bin/plc-textconv.rs`) -/

/-- Rust `u8::is_ascii_whitespace`: space, tab, line feed, form feed, carriage return. -/
def isAsciiWs (c : Char) : Bool :=
  c == ' ' || c == '\t' || c == '\n' || c == '\x0c' || c == '\r'

/-- `NormalizeInstructionLine::normalize_text`: split the text on ASCII
whitespace, drop empty words, append each word followed by one space, and —
when the symbol table maps the word — first pad with `1 + (13 - len)` spaces
(saturating) and append the symbol in square brackets; finally pop the last
byte.  `names` is the `IoNames` symbol table queried by `get_symbol`. -/
def normalize_text (names : List (Bytes × Bytes)) (txt : Bytes) : Bytes :=
  ((txt.splitOnP isAsciiWs).foldl
    (fun new word =>
      if word = [] then new
      else
        let new := new ++ word
        let new :=
          match lookupA names word with
          | some symbol =>
            new ++ List.replicate (1 + (13 - new.length)) ' ' ++ [ '[' ] ++ symbol ++ [ ']' ]
          | Option.none => new
        new ++ [' '])
    []).dropLast

/-- The `InstructionLine` text arm of `load_xml` in `src/main.rs`: the same
whitespace normalization without any symbol injection. -/
def main_normalize_whitespace (txt : Bytes) : Bytes :=
  ((txt.splitOnP isAsciiWs).foldl
    (fun new word => if word = [] then new else new ++ word ++ [' '])
    []).dropLast

/-- Append a normalized chunk to the buffered text, separated by a tab when
both are non-empty (the buffering step of `NormalizeInstructionLine::visit`). -/
def tabAppend (acc new : Bytes) : Bytes :=
  if acc ≠ [] ∧ new ≠ [] then acc ++ '\t' :: new else acc ++ new

/-- State of `NormalizeInstructionLine` (the symbol table reference is passed
separately). -/
structure NormState where
  in_entity : Bool
  text : Bytes
  deriving DecidableEq

/-- `NormalizeInstructionLine::new`. -/
def initNorm : NormState := { in_entity := false, text := [] }

/-- Match helper: is the event an element-open? -/
def XmlEvent.isStart : XmlEvent → Bool
  | .start _ _ => true
  | _ => false

/-- Match helper: is the event an element-close? -/
def XmlEvent.isClose : XmlEvent → Bool
  | .close _ => true
  | _ => false

/-- `NormalizeInstructionLine::visit`: on entering an `InstructionLineEntity`
start buffering; outside an entity pass events through; on the entity's close
emit the buffered text as a single `Text` event; inside the entity buffer the
normalized text chunks (joined with a tab when both sides are non-empty) and
withhold every event from downstream visitors. -/
def normVisit (names : List (Bytes × Bytes)) (s : NormState) (ev : XmlEvent)
    (ct : CurrentTag) : NormState × VisitProc :=
  if ev.isStart = true ∧ ct = .instructionLineEntity then
    ({ s with in_entity := true }, .nextNode)
  else if s.in_entity = false then
    (s, .cont ev)
  else if ev.isClose = true ∧ ct = .instructionLineEntity then
    ({ in_entity := false, text := [] }, .cont (.text s.text))
  else
    match ev with
    | .text txt =>
      ({ s with text := tabAppend s.text (normalize_text names txt) }, .nextNode)
    | _ => (s, .nextNode)

/-- Fold the normalizer over a list of (event, current-tag) pairs, collecting
the per-event visit results. -/
def runNorm (names : List (Bytes × Bytes)) (s : NormState) :
    List (XmlEvent × CurrentTag) → NormState × List VisitProc
  | [] => (s, [])
  | (ev, ct) :: rest =>
    let (s', p) := normVisit names s ev ct
    let (sf, ps) := runNorm names s' rest
    (sf, p :: ps)

/-- The text contents appearing among a list of (event, current-tag) pairs. -/
def innerTexts (l : List (XmlEvent × CurrentTag)) : List Bytes :=
  l.filterMap fun p =>
    match p.fst with
    | .text c => some c
    | _ => Option.none

/-- Tail of a tab-join: every non-empty chunk is prefixed with a tab. -/
def tabTail : List Bytes → Bytes
  | [] => []
  | c :: rest => if c = [] then tabTail rest else '\t' :: c ++ tabTail rest

/-- Join the non-empty chunks of a list with single tab characters. -/
def tabJoinF : List Bytes → Bytes
  | [] => []
  | c :: rest => if c = [] then tabJoinF rest else c ++ tabTail rest

/-- Concrete sequence of events inside one instruction-line entity. -/
def c10Inner : List (XmlEvent × CurrentTag) :=
  [ (.start (bs "InstructionLine") [], .instructionLine),
    (.text (bs "  LD   %I0.0 "), .instructionLine),
    (.close (bs "InstructionLine"), .other),
    (.text (bs "   "), .other),
    (.text (bs "ST %Q0.0"), .other) ]

/-! ## Name context tracker (`NameTracker` in `src/bin/plc-textconv.rs`) -/

/-- `Rung`: breadcrumb name and captured main comment. -/
structure Rung where
  name : Bytes
  main_comment : Bytes
  deriving DecidableEq

/-- State of `NameTracker`.  `names` is the depth-indexed name stack, with the
bottom of the stack at the front of the list and the top at the back (Rust
`Vec` push/pop act on the back). -/
structure NTState where
  rungs : List Rung
  ids : List (Bytes × String)
  names : List (Nat × String)
  new_comment : Bytes
  new_id : Bytes
  depth : Nat
  deriving DecidableEq

/-- `Default for NameTracker`. -/
def initNT : NTState :=
  { rungs := [], ids := [], names := [], new_comment := [], new_id := [], depth := 0 }

/-- `NameTracker::remove_old_names`: pop stack entries from the top while the
top entry's depth is ≥ the current depth (expressed as dropping the matching
suffix through the reversed list). -/
def remove_old_names (depth : Nat) (names : List (Nat × String)) : List (Nat × String) :=
  (names.reverse.dropWhile fun p => depth ≤ p.fst).reverse

/-- `NameTracker::mk_rung_name`: join the stacked names — skipping the first
(project-name) entry and stopping at entries deeper than `depth + 2` — with
the fixed separator. -/
def mk_rung_name (s : NTState) : Bytes :=
  (String.intercalate " > "
    (((s.names.drop 1).takeWhile fun p => p.fst ≤ s.depth + 2).map Prod.snd)).data

/-- `NameTracker::latest_name`: the top-of-stack name, or empty. -/
def latest_name (s : NTState) : String :=
  (s.names.getLast?.map Prod.snd).getD ""

/-- `NameTracker::visit` from `src/bin/plc-textconv.rs`. -/
def nameTrackerVisit (s : NTState) (ev : XmlEvent) (ct : CurrentTag) :
    Except String (NTState × VisitProc) :=
  match ev with
  | .text txt =>
    match ct with
    | .id =>
      match guidOfText txt with
      | .error e => .error e
      | .ok g => .ok ({ s with new_id := g }, .cont ev)
    | .mainComment => .ok ({ s with new_comment := txt }, .cont ev)
    | .name =>
      .ok ({ s with names := remove_old_names s.depth s.names
                      ++ [(s.depth, String.mk txt)] },
           .cont ev)
    | _ => .ok (s, .cont ev)
  | .start _ _ => .ok ({ s with depth := s.depth + 1 }, .cont ev)
  | .close _ =>
    let s' :=
      match ct with
      | .rungEntity =>
        { s with new_comment := [],
                 rungs := s.rungs
                   ++ [({ name := mk_rung_name s, main_comment := s.new_comment } : Rung)] }
      | .grafcetNodeStep =>
        let nm := ((s.names.find? fun p : Nat × String => s.depth < p.fst).map Prod.snd).getD ""
        { s with ids := insertA s.ids s.new_id nm }
      | .grafcetTransition =>
        { s with ids := insertA s.ids s.new_id (latest_name s),
                 names := remove_old_names s.depth s.names }
      | _ => s
    .ok ({ s' with depth := s'.depth - 1 }, .cont ev)
  | _ => .ok (s, .cont ev)

/-- Fold the name tracker over a list of (event, current-tag) pairs. -/
def runNT (s : NTState) : List (XmlEvent × CurrentTag) → Except String NTState
  | [] => .ok s
  | (ev, ct) :: rest =>
    match nameTrackerVisit s ev ct with
    | .error e => .error e
    | .ok (s', _) => runNT s' rest

/-- Concrete event sequence exercising the tracker: nested names at increasing
depths, then a shallower name superseding a sibling subtree's names. -/
def c9Events : List (XmlEvent × CurrentTag) :=
  [ (.start (bs "Project") [], .other),
    (.start (bs "Name") [], .name),
    (.text (bs "Proj"), .name),
    (.close (bs "Name"), .name),
    (.start (bs "Block") [], .other),
    (.start (bs "Name") [], .name),
    (.text (bs "Main"), .name),
    (.close (bs "Name"), .name),
    (.close (bs "Block"), .other),
    (.start (bs "Block") [], .other),
    (.start (bs "Name") [], .name),
    (.text (bs "Aux"), .name),
    (.close (bs "Name"), .name) ]

/-- The tracker state reached by running `c9Events` from the initial state. -/
def c9Final : NTState :=
  { rungs := [], ids := [], names := [(2, "Proj"), (3, "Aux")],
    new_comment := [], new_id := [], depth := 2 }

/-! ## Remaining transform-pass visitors (`src/bin/plc-textconv.rs`) -/

/-- State of `SkipTag`: the skipping flag and the elided tag classification. -/
structure SkipTagState where
  skipping : Bool
  tag : CurrentTag
  deriving DecidableEq

/-- `SkipTag::new`. -/
def SkipTag.new (tag : CurrentTag) : SkipTagState := { skipping := false, tag := tag }

/-- `SkipTag::visit`: while skipping, drop events whose current tag differs
from the elided tag; toggle the skipping flag on the elided tag's open/close
and forward the event. -/
def skipTagVisit (s : SkipTagState) (ev : XmlEvent) (ct : CurrentTag) :
    SkipTagState × VisitProc :=
  if ct ≠ s.tag ∧ s.skipping = true then (s, .nextNode)
  else if ct = s.tag then
    if ev.isStart = true then ({ s with skipping := true }, .cont ev)
    else if ev.isClose = true then ({ s with skipping := false }, .cont ev)
    else (s, .cont ev)
  else (s, .cont ev)

/-- `GuidVisitor::visit`: intern `Id`/`From`/`To` texts and replace them with
the fixed bracketed integer form `==N==`. -/
def guidVisit (m : GuidMapS) (ev : XmlEvent) (ct : CurrentTag) :
    Except String (GuidMapS × VisitProc) :=
  match ev with
  | .text txt =>
    if ct = .fromT ∨ ct = .toT ∨ ct = .id then
      match get_or_insert m txt with
      | .error e => .error e
      | .ok (m', v) => .ok (m', .cont (.text (bs ("==" ++ toString v ++ "=="))))
    else .ok (m, .cont ev)
  | _ => .ok (m, .cont ev)

/-- State of `IoNames`: the address→symbol table and the pending address
with its depth of origin. -/
structure IoState where
  names : List (Bytes × Bytes)
  new_address : Nat × Bytes
  depth : Nat
  deriving DecidableEq

/-- `IoNames::new`. -/
def initIo : IoState := { names := [], new_address := (0, []), depth := 0 }

/-- `ArrayVec<u8, 30>` conversion for addresses and symbols. -/
def arr30 (txt : Bytes) : Except String Bytes :=
  if txt.length ≤ 30 then .ok txt else .error "value too long for ArrayVec"

/-- `IoNames::visit`: track depth, remember the pending address seen in an
`Address` text, record address→symbol on a `Symbol` text, and discard a
pending address once the depth drops below its origin minus one. -/
def ioNamesVisit (s : IoState) (ev : XmlEvent) (ct : CurrentTag) :
    Except String (IoState × VisitProc) :=
  match ev with
  | .start _ _ => .ok ({ s with depth := s.depth + 1 }, .cont ev)
  | .close _ =>
    let d := s.depth - 1
    if d + 2 < s.new_address.fst then
      .ok ({ s with depth := d, new_address := (0, []) }, .cont ev)
    else
      .ok ({ s with depth := d }, .cont ev)
  | .text txt =>
    match ct with
    | .address =>
      match arr30 txt with
      | .error e => .error e
      | .ok a => .ok ({ s with new_address := (s.depth, a) }, .cont ev)
    | .symbol =>
      match arr30 txt with
      | .error e => .error e
      | .ok sym =>
        .ok ({ s with names := insertA s.names s.new_address.snd sym,
                      new_address := (0, []) }, .cont ev)
    | _ => .ok (s, .cont ev)
  | _ => .ok (s, .cont ev)

/-- State of `DiffHeader` (the read-only collection-pass results are passed
separately). -/
structure DHState where
  grc_cnt : Nat
  current_rung : Nat
  deriving DecidableEq

/-- `DiffHeader::new` (counters only). -/
def initDH : DHState := { grc_cnt := 0, current_rung := 0 }

/-- `GrafcetTracer::get_unique_link`: the single entry of whichever side of
the node holds exactly one reference (`to` is preferred); the indexing panic
on a missing node and the `assert!` become errors. -/
def get_unique_link (gt : GTState) (id : Bytes) : Except String Bytes :=
  match lookupA gt.nodes id with
  | Option.none => .error "no such node"
  | some curr =>
    if curr.to'.length = 1 ∨ curr.from'.length = 1 then
      if curr.to'.length = 1 then .ok (curr.to'.headD [])
      else .ok (curr.from'.headD [])
    else .error "assertion failed: unique link"

/-- `DiffHeader::id`: resolve a display name, walking through the unique link
of nodes that have no recorded name.  The Rust function recurses with no bound
and no visited set; the embedding makes the recursion depth explicit through
`fuel` — with fuel exceeding the node count, fuel exhaustion coincides with a
walk that revisits a node and hence cycles forever. -/
def diffId (ids : List (Bytes × String)) (gt : GTState) : Nat → Bytes → Except String String
  | 0, _ => .error "recursion limit exceeded"
  | n + 1, g =>
    match lookupA ids g with
    | some nm => .ok nm
    | Option.none =>
      match get_unique_link gt g with
      | .error e => .error e
      | .ok x => diffId ids gt n x

/-- `GrafcetTracer::get_current_node` (`sequence[cnt - 1]`, with the usize
underflow panic at `cnt = 0` and both indexing panics as errors). -/
def get_current_node (gt : GTState) (cnt : Nat) : Except String GrafcetNode :=
  if cnt = 0 then .error "index underflow"
  else
    match gt.sequence[cnt - 1]? with
    | Option.none => .error "sequence index out of bounds"
    | some g =>
      match lookupA gt.nodes g with
      | Option.none => .error "no such node"
      | some node => .ok node

/-- `DiffHeader::trans_ctx`: fetch the current node, require its unique
triple, and format `from->[id]->to` with resolved display names. -/
def trans_ctx (trk : NTState) (gt : GTState) (cnt : Nat) : Except String Bytes :=
  match get_current_node gt cnt with
  | .error e => .error e
  | .ok node =>
    match uniq_triple node with
    | Option.none => .error "Failed to get uniq triple"
    | some (f, i, t) =>
      let fuel := gt.nodes.length + 1
      match diffId trk.ids gt fuel f with
      | .error e => .error e
      | .ok fn =>
        match diffId trk.ids gt fuel i with
        | .error e => .error e
        | .ok idn =>
          match diffId trk.ids gt fuel t with
          | .error e => .error e
          | .ok tn => .ok (fn.data ++ bs "->[" ++ idn.data ++ bs "]->" ++ tn.data)

/-- `DiffHeader::visit`: on element opens, advance the grafcet counter; on a
`RungEntity` open push the next rung's breadcrumb as a `ctx` attribute; on a
`GrafcetTransition` open push the resolved transition context. -/
def diffHeaderVisit (trk : NTState) (gt : GTState) (s : DHState) (ev : XmlEvent)
    (ct : CurrentTag) : Except String (DHState × VisitProc) :=
  match ev with
  | .start tag attrs =>
    let cnt := (process_current_tag s.grc_cnt ct).fst
    match ct with
    | .rungEntity =>
      match trk.rungs[s.current_rung]? with
      | Option.none => .error "rung index out of bounds"
      | some rung =>
        .ok ({ grc_cnt := cnt, current_rung := s.current_rung + 1 },
             .cont (.start tag (attrs ++ [(bs "ctx", rung.name)])))
    | .grafcetTransition =>
      match trans_ctx trk gt cnt with
      | .error e => .error e
      | .ok hdr =>
        .ok ({ s with grc_cnt := cnt }, .cont (.start tag (attrs ++ [(bs "ctx", hdr)])))
    | _ => .ok ({ s with grc_cnt := cnt }, .cont ev)
  | _ => .ok (s, .cont ev)

/-- Combined Collection-Pass state. -/
structure P1State where
  io : IoState
  nt : NTState
  gt : GTState
  deriving DecidableEq

/-- Fresh Collection-Pass state. -/
def initP1 : P1State := { io := initIo, nt := initNT, gt := initGT }

/-- The Collection-Pass visitor chain of `output_visitor`:
IoNames → NameTracker → GrafcetTracer, threading the (possibly rewritten)
event and stopping early on skip-to-next-event. -/
def p1Visit (s : P1State) (ev : XmlEvent) (ct : CurrentTag) : Except String P1State :=
  match ioNamesVisit s.io ev ct with
  | .error e => .error e
  | .ok (io, p) =>
    match p with
    | .nextNode => .ok { s with io := io }
    | .cont ev =>
      match nameTrackerVisit s.nt ev ct with
      | .error e => .error e
      | .ok (nt, p) =>
        match p with
        | .nextNode => .ok { s with io := io, nt := nt }
        | .cont ev =>
          match grafcetVisit s.gt ev ct with
          | .error e => .error e
          | .ok (gt, _) => .ok { io := io, nt := nt, gt := gt }

/-- Combined Transform-Pass state; `out` is the sink's serialized event list. -/
structure P2State where
  skip : SkipTagState
  dh : DHState
  norm : NormState
  guid : GuidMapS
  out : List XmlEvent
  deriving DecidableEq

/-- Fresh Transform-Pass state (`SkipTag::new(LadderElements)`, fresh
interner, fresh normalizer, empty sink). -/
def initP2 : P2State :=
  { skip := SkipTag.new .ladderElements, dh := initDH, norm := initNorm,
    guid := initGuidMap, out := [] }

/-- The Transform-Pass visitor chain of `output_visitor`, in source order:
SkipTag (substructure elider) → DiffHeader (context annotator) →
NormalizeInstructionLine (text normalizer) → GuidVisitor (identifier
interner) → EventWriter (sink, modelled as appending to `out`). -/
def p2Visit (trk : NTState) (gt : GTState) (io : List (Bytes × Bytes))
    (s : P2State) (ev : XmlEvent) (ct : CurrentTag) : Except String P2State :=
  let (sk, p) := skipTagVisit s.skip ev ct
  let s := { s with skip := sk }
  match p with
  | .nextNode => .ok s
  | .cont ev =>
    match diffHeaderVisit trk gt s.dh ev ct with
    | .error e => .error e
    | .ok (dh, p) =>
      let s := { s with dh := dh }
      match p with
      | .nextNode => .ok s
      | .cont ev =>
        let (nm, p) := normVisit io s.norm ev ct
        let s := { s with norm := nm }
        match p with
        | .nextNode => .ok s
        | .cont ev =>
          match guidVisit s.guid ev ct with
          | .error e => .error e
          | .ok (g, p) =>
            let s := { s with guid := g }
            match p with
            | .nextNode => .ok s
            | .cont ev => .ok { s with out := s.out ++ [ev] }

/-- `output_visitor`: the whole two-pass transformation, from the raw event
stream to the sink's event stream. -/
def output_visitor (doc : List XmlEvent) : Except String (List XmlEvent) :=
  match driver p1Visit initP1 .none doc with
  | .error e => .error e
  | .ok p1 =>
    match driver (p2Visit p1.nt p1.gt p1.io.names) initP2 .none doc with
    | .error e => .error e
    | .ok p2 => .ok p2.out

/-- Modelled from the spec: the Transform-Pass chain in the order the spec's
control-flow sentence lists it (Substructure Elider → Identifier Interner →
Context Annotator → Text Normalizer → Sink), for comparison with the
implemented order. -/
def p2VisitSpecOrder (trk : NTState) (gt : GTState) (io : List (Bytes × Bytes))
    (s : P2State) (ev : XmlEvent) (ct : CurrentTag) : Except String P2State :=
  let (sk, p) := skipTagVisit s.skip ev ct
  let s := { s with skip := sk }
  match p with
  | .nextNode => .ok s
  | .cont ev =>
    match guidVisit s.guid ev ct with
    | .error e => .error e
    | .ok (g, p) =>
      let s := { s with guid := g }
      match p with
      | .nextNode => .ok s
      | .cont ev =>
        match diffHeaderVisit trk gt s.dh ev ct with
        | .error e => .error e
        | .ok (dh, p) =>
          let s := { s with dh := dh }
          match p with
          | .nextNode => .ok s
          | .cont ev =>
            let (nm, p) := normVisit io s.norm ev ct
            let s := { s with norm := nm }
            match p with
            | .nextNode => .ok s
            | .cont ev => .ok { s with out := s.out ++ [ev] }

/-- Modelled from the spec: `output_visitor` with the spec-claimed transform
pipeline order. -/
def output_visitor_spec_order (doc : List XmlEvent) : Except String (List XmlEvent) :=
  match driver p1Visit initP1 .none doc with
  | .error e => .error e
  | .ok p1 =>
    match driver (p2VisitSpecOrder p1.nt p1.gt p1.io.names) initP2 .none doc with
    | .error e => .error e
    | .ok p2 => .ok p2.out

/-- A document with a populated `LadderElements` subtree and a sibling element. -/
def c2Doc : List XmlEvent :=
  [ .start (bs "Root") [],
    .start (bs "LadderElements") [],
    .start (bs "Inner") [], .text (bs "x"), .close (bs "Inner"),
    .close (bs "LadderElements"),
    .start (bs "Sib") [], .text (bs "y"), .close (bs "Sib"),
    .close (bs "Root"), .eof ]

/-- Transform output for `c2Doc`: the inner ladder elements vanish, but the
`LadderElements` boundary tags remain. -/
def c2Out : List XmlEvent :=
  [ .start (bs "Root") [],
    .start (bs "LadderElements") [],
    .close (bs "LadderElements"),
    .start (bs "Sib") [], .text (bs "y"), .close (bs "Sib"),
    .close (bs "Root"), .eof ]

/-- A document with an interned identifier outside and a raw identifier text
inside an instruction-line entity. -/
def c6Doc : List XmlEvent :=
  [ .start (bs "Id") [], .text (bs "guid-1"), .close (bs "Id"),
    .start (bs "InstructionLineEntity") [],
    .text (bs "  FOO  bar "),
    .start (bs "Id") [], .text (bs "guid-2"), .close (bs "Id"),
    .close (bs "InstructionLineEntity"),
    .eof ]

/-- Output of the implemented pipeline on `c6Doc`: the entity-internal
identifier text is buffered by the normalizer and never interned. -/
def c6ActualOut : List XmlEvent :=
  [ .start (bs "Id") [], .text (bs "==1=="), .close (bs "Id"),
    .text (bs "FOO bar\tguid-2"), .eof ]

/-- Output of the spec-ordered pipeline on `c6Doc`: the interner would run
before the normalizer and replace the entity-internal identifier. -/
def c6SpecOut : List XmlEvent :=
  [ .start (bs "Id") [], .text (bs "==1=="), .close (bs "Id"),
    .text (bs "FOO bar\t==2=="), .eof ]

/-- An unnamed node whose unique link points at `b`. -/
def cycNodeA : GrafcetNode := { id := bs "a", from' := [bs "x", bs "y"], to' := [bs "b"] }

/-- An unnamed node whose unique link points back at `a`. -/
def cycNodeB : GrafcetNode := { id := bs "b", from' := [bs "p", bs "q"], to' := [bs "a"] }

/-- A malformed cyclic reference structure: the two nodes link to each other. -/
def cycGT : GTState :=
  { initGT with nodes := [(bs "a", cycNodeA), (bs "b", cycNodeB)],
                sequence := [bs "a", bs "b"] }

/-- An empty name-resolution table: neither node has a display name. -/
def cycIds : List (Bytes × String) := []

/-! ## Theorems -/

/-- C1: on the close of a node-classified element that passes the depth
bookkeeping check, the builder accepts the node if and only if at least one of
its incoming (`from'`) or outgoing (`to'`) reference lists has length exactly
one; in particular a node with 1 incoming and 3 outgoing references is
accepted, and a node with 2 incoming and 2 outgoing references raises the
fatal, pass-aborting error. -/
theorem grafcet_fan_invariant (s : GTState) (t : Bytes) (ct : CurrentTag)
    (hnode : isGrafcetNodeTag ct = true)
    (hdepth : ¬ s.current_depth + 1 < s.new_node.fst) :
    (isError (grafcetVisit s (.close t) ct) = false ↔
      (s.new_node.snd.from'.length = 1 ∨ s.new_node.snd.to'.length = 1)) ∧
    isError (grafcetVisit node13State (.close (bs "GrafcetOrFork")) .grafcetOrFork) = false ∧
    isError (grafcetVisit node22State (.close (bs "GrafcetTransition")) .grafcetTransition)
      = true := by
  refine ⟨?_, by decide, by decide⟩
  unfold grafcetVisit
  by_cases hfan : s.new_node.snd.from'.length = 1 ∨ s.new_node.snd.to'.length = 1
  · simp [hdepth, hfan, process_current_tag, hnode, isError]
  · simp [hdepth, hfan, process_current_tag, hnode, isError]

/-- C1 witness: the fan invariant applied to a concrete fork node with one
incoming and three outgoing references, which the builder accepts. -/
theorem grafcet_fan_invariant_witness :
    isError (grafcetVisit node13State (.close (bs "GrafcetOrFork")) .grafcetOrFork) = false :=
  ((grafcet_fan_invariant node13State (bs "GrafcetOrFork") .grafcetOrFork
      (by decide) (by decide)).1).mpr (Or.inl (by decide))

/-- C7 counterexample: in `c7Events` the node's recorded open-depth (1) differs
from the close depth (2) when the transition element closes, yet the run
succeeds and the node is accepted into the node table — no error is raised for
this direction of mismatch. -/
theorem depth_mismatch_accepted :
    c7Probe = .ok (1, 2) ∧
    c7FinalProbe = .ok (some { id := bs "gid-a", from' := [bs "gf"], to' := [bs "gt"] }) := by
  exact ⟨by rfl, by rfl⟩

/-- C7 amended: on the close of any element the builder raises the fatal error
exactly when the recorded open-depth exceeds the close depth plus one, or when
a node-classified element closes with the fan-in/fan-out invariant violated; a
recorded open-depth that is smaller than the close depth (the other direction
of mismatch) is accepted silently. -/
theorem grafcet_close_error_iff (s : GTState) (t : Bytes) (ct : CurrentTag) :
    isError (grafcetVisit s (.close t) ct) = true ↔
      (s.current_depth + 1 < s.new_node.fst ∨
        (isGrafcetNodeTag ct = true ∧
          ¬ (s.new_node.snd.from'.length = 1 ∨ s.new_node.snd.to'.length = 1))) := by
  unfold grafcetVisit
  by_cases h1 : s.current_depth + 1 < s.new_node.fst
  · simp [h1, isError]
  · by_cases h2 : isGrafcetNodeTag ct = true
    · by_cases h3 : s.new_node.snd.from'.length = 1 ∨ s.new_node.snd.to'.length = 1
      · simp [h1, h2, h3, process_current_tag, isError]
      · simp [h1, h2, h3, process_current_tag, isError]
    · simp only [Bool.not_eq_true] at h2
      simp [h1, h2, process_current_tag, isError]

theorem lookup_mapOf (seen : List Bytes) :
    ∀ (k : Nat) (a : Bytes),
      lookupA (mapOf seen k) a =
        if a ∈ seen then some (rankIn seen a + k) else Option.none := by
  induction seen with
  | nil => intro k a; simp [mapOf, lookupA]
  | cons t rest ih =>
    intro k a
    by_cases h : t = a
    · subst h
      simp [mapOf, lookupA, rankIn]
    · simp only [mapOf, lookupA, if_neg h, ih (k + 1) a, rankIn, List.mem_cons]
      by_cases hm : a ∈ rest
      · simp [hm, Ne.symm h, if_neg h]
        omega
      · simp [hm, Ne.symm h, if_neg h]

theorem mapOf_append (l₁ l₂ : List Bytes) :
    ∀ k, mapOf (l₁ ++ l₂) k = mapOf l₁ k ++ mapOf l₂ (k + l₁.length) := by
  induction l₁ with
  | nil => intro k; simp [mapOf]
  | cons t rest ih =>
    intro k
    show (t, k) :: mapOf (rest ++ l₂) (k + 1)
        = (t, k) :: (mapOf rest (k + 1) ++ mapOf l₂ (k + (t :: rest).length))
    rw [ih (k + 1)]
    have : k + 1 + rest.length = k + (t :: rest).length := by
      simp only [List.length_cons]
      omega
    rw [this]

theorem seenFold_nil (seen : List Bytes) : seenFold seen [] = seen := rfl

theorem seenFold_cons (seen : List Bytes) (t : Bytes) (l : List Bytes) :
    seenFold seen (t :: l) = seenFold (if t ∈ seen then seen else seen ++ [t]) l := rfl

theorem seenFold_append (seen l₁ l₂ : List Bytes) :
    seenFold seen (l₁ ++ l₂) = seenFold (seenFold seen l₁) l₂ :=
  List.foldl_append _ _ _ _

theorem mem_seenFold (l : List Bytes) :
    ∀ (seen : List Bytes) (a : Bytes), a ∈ seenFold seen l ↔ a ∈ seen ∨ a ∈ l := by
  induction l with
  | nil => intro seen a; simp [seenFold_nil]
  | cons t rest ih =>
    intro seen a
    rw [seenFold_cons]
    by_cases h : t ∈ seen
    · rw [if_pos h, ih]
      constructor
      · rintro (hs | hr)
        · exact Or.inl hs
        · exact Or.inr (List.mem_cons_of_mem _ hr)
      · rintro (hs | hc)
        · exact Or.inl hs
        · rcases List.mem_cons.mp hc with rfl | hr
          · exact Or.inl h
          · exact Or.inr hr
    · rw [if_neg h, ih]
      simp only [List.mem_append, List.mem_singleton, List.mem_cons]
      try tauto

theorem seenFold_extends (l : List Bytes) :
    ∀ seen : List Bytes, ∃ tail, seenFold seen l = seen ++ tail := by
  induction l with
  | nil => intro seen; exact ⟨[], by simp [seenFold_nil]⟩
  | cons t rest ih =>
    intro seen
    rw [seenFold_cons]
    by_cases h : t ∈ seen
    · rw [if_pos h]; exact ih seen
    · rw [if_neg h]
      obtain ⟨tail, htail⟩ := ih (seen ++ [t])
      exact ⟨[t] ++ tail, by rw [htail, List.append_assoc]⟩

theorem rankIn_inj (l : List Bytes) :
    ∀ a b, a ∈ l → b ∈ l → rankIn l a = rankIn l b → a = b := by
  induction l with
  | nil => intro a b ha; cases ha
  | cons x rest ih =>
    intro a b ha hb h
    by_cases hxa : x = a
    · by_cases hxb : x = b
      · rw [← hxa, ← hxb]
      · rw [rankIn, if_pos hxa, rankIn, if_neg hxb] at h
        omega
    · by_cases hxb : x = b
      · rw [rankIn, if_neg hxa, rankIn, if_pos hxb] at h
        omega
      · rw [rankIn, if_neg hxa, rankIn, if_neg hxb] at h
        rcases List.mem_cons.mp ha with rfl | ha'
        · exact absurd rfl hxa
        · rcases List.mem_cons.mp hb with rfl | hb'
          · exact absurd rfl hxb
          · exact ih a b ha' hb' (by omega)

theorem rankIn_append_of_mem (l₁ : List Bytes) :
    ∀ (l₂ : List Bytes) (a : Bytes), a ∈ l₁ → rankIn (l₁ ++ l₂) a = rankIn l₁ a := by
  induction l₁ with
  | nil => intro l₂ a ha; cases ha
  | cons x rest ih =>
    intro l₂ a ha
    by_cases hxa : x = a
    · simp [rankIn, hxa]
    · rcases List.mem_cons.mp ha with rfl | ha'
      · exact absurd rfl hxa
      · simp [rankIn, hxa, ih l₂ a ha']

theorem rankIn_append_fresh (l₁ : List Bytes) :
    ∀ a : Bytes, a ∉ l₁ → rankIn (l₁ ++ [a]) a = l₁.length := by
  induction l₁ with
  | nil => intro a _; simp [rankIn]
  | cons x rest ih =>
    intro a ha
    have hxa : x ≠ a := fun h => ha (h ▸ List.mem_cons_self x rest)
    have ha' : a ∉ rest := fun h => ha (List.mem_cons_of_mem _ h)
    simp [rankIn, hxa, ih a ha']

theorem getQ_mem {α : Type} (l : List α) :
    ∀ (i : Nat) (a : α), l[i]? = some a → a ∈ l := by
  induction l with
  | nil => intro i a h; simp at h
  | cons x rest ih =>
    intro i a h
    cases i with
    | zero => simp at h; exact h ▸ List.mem_cons_self x rest
    | succ i => exact List.mem_cons_of_mem _ (ih i a (by simpa using h))

theorem take_succ_getQ {α : Type} (l : List α) :
    ∀ (i : Nat) (a : α), l[i]? = some a → l.take (i + 1) = l.take i ++ [a] := by
  induction l with
  | nil => intro i a h; simp at h
  | cons x rest ih =>
    intro i a h
    cases i with
    | zero => simp at h; simp [h]
    | succ i =>
      simp only [List.take_succ_cons, List.cons_append]
      rw [← ih i a (by simpa using h)]

theorem seenFold_cons_mem {seen : List Bytes} {t : Bytes} (l : List Bytes) (h : t ∈ seen) :
    seenFold seen (t :: l) = seenFold seen l := by
  rw [seenFold_cons, if_pos h]

theorem seenFold_cons_fresh {seen : List Bytes} {t : Bytes} (l : List Bytes) (h : t ∉ seen) :
    seenFold seen (t :: l) = seenFold (seen ++ [t]) l := by
  rw [seenFold_cons, if_neg h]

theorem get_or_insert_mem (seen : List Bytes) (t : Bytes) (hmem : t ∈ seen) :
    get_or_insert { map := mapOf seen 1, next := seen.length } t
      = .ok ({ map := mapOf seen 1, next := seen.length }, rankIn seen t + 1) := by
  unfold get_or_insert
  rw [lookup_mapOf, if_pos hmem]

theorem get_or_insert_fresh (seen : List Bytes) (t : Bytes) (hmem : t ∉ seen)
    (hfit : t.length ≤ 36) :
    get_or_insert { map := mapOf seen 1, next := seen.length } t
      = .ok ({ map := mapOf (seen ++ [t]) 1, next := (seen ++ [t]).length },
             seen.length + 1) := by
  have hl : lookupA (mapOf seen 1) t = Option.none := by
    rw [lookup_mapOf, if_neg hmem]
  have hg : guidOfText t = .ok t := by
    rw [guidOfText, if_pos hfit]
  have hmap : mapOf seen 1 ++ [(t, seen.length + 1)] = mapOf (seen ++ [t]) 1 := by
    rw [mapOf_append]
    simp [mapOf, Nat.add_comm]
  have hlen' : (seen ++ [t]).length = seen.length + 1 := by simp
  unfold get_or_insert
  rw [hl, hg, ← hmap, hlen']

theorem getQ_exists {α : Type} (l : List α) :
    ∀ i, i < l.length → ∃ a, l[i]? = some a := by
  induction l with
  | nil => intro i h; simp at h
  | cons x rest ih =>
    intro i h
    cases i with
    | zero => exact ⟨x, by simp⟩
    | succ i =>
      obtain ⟨a, ha⟩ := ih i (by simp only [List.length_cons] at h; omega)
      exact ⟨a, by simpa using ha⟩

theorem runInterner_cons (s : GuidMapS) (t : Bytes) (rest : List Bytes) (s' : GuidMapS)
    (v : Nat) (h : get_or_insert s t = .ok (s', v)) :
    runInterner s (t :: rest)
      = match runInterner s' rest with
        | .error e => .error e
        | .ok (s'', vs) => .ok (s'', v :: vs) := by
  rw [runInterner, h]

theorem runInterner_char (txts : List Bytes) :
    ∀ seen : List Bytes, (∀ t ∈ txts, t.length ≤ 36) →
      ∃ outs,
        runInterner { map := mapOf seen 1, next := seen.length } txts
          = .ok ({ map := mapOf (seenFold seen txts) 1,
                   next := (seenFold seen txts).length }, outs) ∧
        outs.length = txts.length ∧
        ∀ i t, txts[i]? = some t →
          outs[i]? = some (rankIn (seenFold seen (txts.take (i + 1))) t + 1) := by
  induction txts with
  | nil =>
    intro seen _
    exact ⟨[], by simp [runInterner, seenFold_nil]⟩
  | cons t rest ih =>
    intro seen hfit
    have hfit' : ∀ u ∈ rest, u.length ≤ 36 := fun u hu => hfit u (List.mem_cons_of_mem _ hu)
    by_cases hmem : t ∈ seen
    · obtain ⟨outs, hrun, hlen, hidx⟩ := ih seen hfit'
      refine ⟨(rankIn seen t + 1) :: outs, ?_, by simpa using hlen, ?_⟩
      · rw [runInterner_cons _ _ _ _ _ (get_or_insert_mem seen t hmem), hrun,
          seenFold_cons_mem rest hmem]
      · intro i u hu
        cases i with
        | zero =>
          simp only [List.getElem?_cons_zero, Option.some_inj] at hu
          subst hu
          rw [List.take_succ_cons, List.take_zero, seenFold_cons_mem [] hmem]
          simp [seenFold_nil]
        | succ i =>
          simp only [List.getElem?_cons_succ] at hu ⊢
          rw [hidx i u hu, List.take_succ_cons, seenFold_cons_mem _ hmem]
    · have hlen36 : t.length ≤ 36 := hfit t (List.mem_cons_self t rest)
      obtain ⟨outs, hrun, hlen, hidx⟩ := ih (seen ++ [t]) hfit'
      refine ⟨(seen.length + 1) :: outs, ?_, by simpa using hlen, ?_⟩
      · rw [runInterner_cons _ _ _ _ _ (get_or_insert_fresh seen t hmem hlen36), hrun,
          seenFold_cons_fresh rest hmem]
      · intro i u hu
        cases i with
        | zero =>
          simp only [List.getElem?_cons_zero, Option.some_inj] at hu
          subst hu
          rw [List.take_succ_cons, List.take_zero, seenFold_cons_fresh [] hmem]
          simp only [seenFold_nil, List.getElem?_cons_zero, Option.some_inj]
          rw [rankIn_append_fresh seen t hmem]
        | succ i =>
          simp only [List.getElem?_cons_succ] at hu ⊢
          rw [hidx i u hu, List.take_succ_cons, seenFold_cons_fresh _ hmem]

/-- C4: identifier interning is injective within one pass.  For any call
sequence (all identifiers within the 36-byte GUID bound) the run succeeds and
produces one integer per call such that two positions receive the same integer
exactly when they carry the same identifier (so two distinct first-seen
identifiers never share an integer and a repeated identifier always gets the
integer of its first occurrence), and a newly seen identifier at position `i`
is assigned `count + 1`, where `count` is the number of distinct identifiers
seen before it — hence the k-th distinct identifier receives the integer k. -/
theorem interner_injective_stable (txts : List Bytes)
    (hfit : ∀ t ∈ txts, t.length ≤ 36) :
    ∃ sf outs, runInterner initGuidMap txts = .ok (sf, outs) ∧
      outs.length = txts.length ∧
      (∀ i j, i < txts.length → j < txts.length →
        (outs[i]? = outs[j]? ↔ txts[i]? = txts[j]?)) ∧
      (∀ i t, txts[i]? = some t → t ∉ txts.take i →
        outs[i]? = some ((seenFold [] (txts.take i)).length + 1)) := by
  obtain ⟨outs, hrun, hlen, hidx⟩ := runInterner_char txts [] hfit
  have hinit : initGuidMap = { map := mapOf [] 1, next := ([] : List Bytes).length } := rfl
  refine ⟨{ map := mapOf (seenFold [] txts) 1, next := (seenFold [] txts).length }, outs,
    by rw [hinit, hrun], hlen, ?_, ?_⟩
  · -- every output is the (stable) rank of its input in the final first-seen list
    have hfinal : ∀ (i : Nat) (t : Bytes), txts[i]? = some t →
        outs[i]? = some (rankIn (seenFold [] txts) t + 1) := by
      intro i t ht
      have hsplit : txts = txts.take (i + 1) ++ txts.drop (i + 1) :=
        (List.take_append_drop _ _).symm
      have hmemtake : t ∈ txts.take (i + 1) := by
        rw [take_succ_getQ txts i t ht]
        exact List.mem_append_right _ (List.mem_singleton.mpr rfl)
      obtain ⟨tail, htail⟩ := seenFold_extends (txts.drop (i + 1)) (seenFold [] (txts.take (i + 1)))
      have : seenFold [] txts = seenFold [] (txts.take (i + 1)) ++ tail := by
        conv_lhs => rw [hsplit]
        rw [seenFold_append, htail]
      rw [hidx i t ht, this,
        rankIn_append_of_mem _ tail t (by
          rw [mem_seenFold]
          exact Or.inr hmemtake)]
    intro i j hi hj
    obtain ⟨ti, hti⟩ := getQ_exists txts i hi
    obtain ⟨tj, htj⟩ := getQ_exists txts j hj
    rw [hti, htj, hfinal i ti hti, hfinal j tj htj]
    constructor
    · intro h
      have hrk : rankIn (seenFold [] txts) ti = rankIn (seenFold [] txts) tj := by
        have := Option.some_inj.mp h
        omega
      have hmi : ti ∈ seenFold [] txts := (mem_seenFold _ _ _).mpr (Or.inr (getQ_mem _ i ti hti))
      have hmj : tj ∈ seenFold [] txts := (mem_seenFold _ _ _).mpr (Or.inr (getQ_mem _ j tj htj))
      rw [rankIn_inj _ ti tj hmi hmj hrk]
    · intro h
      rw [Option.some_inj.mp h]
  · intro i t ht hfresh
    rw [hidx i t ht, take_succ_getQ txts i t ht]
    have hnot : t ∉ seenFold [] (txts.take i) := by
      rw [mem_seenFold]
      rintro (h | h)
      · cases h
      · exact hfresh h
    rw [seenFold_append, seenFold_cons, if_neg hnot, seenFold_nil,
      rankIn_append_fresh _ t hnot]

/-- C4 witness: the interner run on the concrete sequence `idA, idB, idA`
(its middle identifier fresh, its last a repeat), with every hypothesis of the
interning theorem discharged. -/
theorem interner_injective_stable_witness :
    ∃ sf outs, runInterner initGuidMap c4Txts = .ok (sf, outs) ∧
      outs.length = c4Txts.length ∧
      (∀ i j, i < c4Txts.length → j < c4Txts.length →
        (outs[i]? = outs[j]? ↔ c4Txts[i]? = c4Txts[j]?)) ∧
      (∀ i t, c4Txts[i]? = some t → t ∉ c4Txts.take i →
        outs[i]? = some ((seenFold [] (c4Txts.take i)).length + 1)) :=
  interner_injective_stable c4Txts (by decide)

/-- C3 counterexample: with symbol `START_BTN` recorded for address token
`%I0.0`, normalizing `LD %I0.0` does not separate the bracketed symbol by a
single space — the code pads with spaces up to a fixed column instead. -/
theorem symbol_padding_not_single_space :
    normalize_text [(bs "%I0.0", bs "START_BTN")] (bs "LD %I0.0")
      ≠ bs "LD %I0.0 [START_BTN]" := by decide

/-- C3 amended: the whitespace scenario holds as specified (in both binaries:
`NormalizeInstructionLine::normalize_text` and the `InstructionLine` arm of
`main.rs`), but an injected symbol is preceded by `1 + (13 - len)` padding
spaces — six spaces for `LD %I0.0` — aligning the opening bracket at byte
offset 14, not by a single space. -/
theorem normalize_whitespace_and_padding :
    normalize_text [] (bs "  LD   %I0.0\n\t ST %Q0.0 ") = bs "LD %I0.0 ST %Q0.0" ∧
    main_normalize_whitespace (bs "  LD   %I0.0\n\t ST %Q0.0 ") = bs "LD %I0.0 ST %Q0.0" ∧
    normalize_text [(bs "%I0.0", bs "START_BTN")] (bs "LD %I0.0")
      = bs "LD %I0.0      [START_BTN]" :=
  ⟨by decide, by decide, by decide⟩

theorem foldl_tabAppend_ne (l : List Bytes) :
    ∀ acc : Bytes, acc ≠ [] → l.foldl tabAppend acc = acc ++ tabTail l := by
  induction l with
  | nil => intro acc _; simp [tabTail]
  | cons c rest ih =>
    intro acc hacc
    by_cases hc : c = []
    · subst hc
      show rest.foldl tabAppend (tabAppend acc []) = acc ++ tabTail ([] :: rest)
      have h1 : tabAppend acc [] = acc := by simp [tabAppend]
      rw [h1, ih acc hacc, tabTail, if_pos rfl]
    · show rest.foldl tabAppend (tabAppend acc c) = acc ++ tabTail (c :: rest)
      have h1 : tabAppend acc c = acc ++ '\t' :: c := by
        rw [tabAppend, if_pos ⟨hacc, hc⟩]
      have h2 : tabAppend acc c ≠ [] := by
        rw [h1]; simp
      rw [ih _ h2, h1, tabTail, if_neg hc]
      simp

theorem foldl_tabAppend_nil (l : List Bytes) :
    l.foldl tabAppend [] = tabJoinF l := by
  induction l with
  | nil => simp [tabJoinF]
  | cons c rest ih =>
    by_cases hc : c = []
    · subst hc
      show rest.foldl tabAppend (tabAppend [] []) = tabJoinF ([] :: rest)
      have h1 : tabAppend [] [] = ([] : Bytes) := by simp [tabAppend]
      rw [h1, ih, tabJoinF, if_pos rfl]
    · show rest.foldl tabAppend (tabAppend [] c) = tabJoinF (c :: rest)
      have h1 : tabAppend [] c = c := by simp [tabAppend]
      rw [h1, foldl_tabAppend_ne rest c hc, tabJoinF, if_neg hc]

theorem normVisit_inside_text (names : List (Bytes × Bytes)) (buf txt : Bytes)
    (ct : CurrentTag) (hct : ct ≠ CurrentTag.instructionLineEntity) :
    normVisit names { in_entity := true, text := buf } (.text txt) ct
      = ({ in_entity := true, text := tabAppend buf (normalize_text names txt) },
         .nextNode) := by
  rw [normVisit, if_neg (by simp [XmlEvent.isStart]), if_neg (by simp),
    if_neg (by simp [hct])]

theorem normVisit_inside_other (names : List (Bytes × Bytes)) (buf : Bytes)
    (ev : XmlEvent) (ct : CurrentTag) (hct : ct ≠ CurrentTag.instructionLineEntity)
    (hev : ∀ txt, ev ≠ XmlEvent.text txt) :
    normVisit names { in_entity := true, text := buf } ev ct
      = ({ in_entity := true, text := buf }, .nextNode) := by
  cases ev with
  | text txt => exact absurd rfl (hev txt)
  | start tag attrs =>
    rw [normVisit, if_neg (by simp [hct]), if_neg (by simp), if_neg (by simp [XmlEvent.isClose])]
    intro txt hh
    cases hh
  | close tag =>
    rw [normVisit, if_neg (by simp [XmlEvent.isStart]), if_neg (by simp), if_neg (by simp [hct])]
    intro txt hh
    cases hh
  | eof =>
    rw [normVisit, if_neg (by simp [XmlEvent.isStart]), if_neg (by simp),
      if_neg (by simp [XmlEvent.isClose])]
    intro txt hh
    cases hh
  | otherEv =>
    rw [normVisit, if_neg (by simp [XmlEvent.isStart]), if_neg (by simp),
      if_neg (by simp [XmlEvent.isClose])]
    intro txt hh
    cases hh

theorem runNorm_inside (names : List (Bytes × Bytes)) (inner : List (XmlEvent × CurrentTag)) :
    ∀ buf : Bytes, (∀ p ∈ inner, p.snd ≠ CurrentTag.instructionLineEntity) →
      runNorm names { in_entity := true, text := buf } inner
        = ({ in_entity := true,
             text := ((innerTexts inner).map (normalize_text names)).foldl tabAppend buf },
           inner.map fun _ => VisitProc.nextNode) := by
  induction inner with
  | nil => intro buf _; simp [runNorm, innerTexts]
  | cons p rest ih =>
    obtain ⟨ev, ct⟩ := p
    intro buf h
    have hct : ct ≠ CurrentTag.instructionLineEntity := by
      have := h (ev, ct) (List.mem_cons_self _ _)
      simpa using this
    have hrest : ∀ q ∈ rest, q.snd ≠ CurrentTag.instructionLineEntity :=
      fun q hq => h q (List.mem_cons_of_mem _ hq)
    cases ev with
    | text txt =>
      simp only [runNorm, normVisit_inside_text names buf txt ct hct]
      rw [ih _ hrest]
      simp [innerTexts]
    | start tag attrs =>
      simp only [runNorm,
        normVisit_inside_other names buf (.start tag attrs) ct hct (by intro t hh; cases hh)]
      rw [ih _ hrest]
      simp [innerTexts]
    | close tag =>
      simp only [runNorm,
        normVisit_inside_other names buf (.close tag) ct hct (by intro t hh; cases hh)]
      rw [ih _ hrest]
      simp [innerTexts]
    | eof =>
      simp only [runNorm,
        normVisit_inside_other names buf .eof ct hct (by intro t hh; cases hh)]
      rw [ih _ hrest]
      simp [innerTexts]
    | otherEv =>
      simp only [runNorm,
        normVisit_inside_other names buf .otherEv ct hct (by intro t hh; cases hh)]
      rw [ih _ hrest]
      simp [innerTexts]

theorem runNorm_append (names : List (Bytes × Bytes)) (l₁ : List (XmlEvent × CurrentTag)) :
    ∀ (s : NormState) (l₂ : List (XmlEvent × CurrentTag)),
      runNorm names s (l₁ ++ l₂)
        = ((runNorm names (runNorm names s l₁).fst l₂).fst,
           (runNorm names s l₁).snd ++ (runNorm names (runNorm names s l₁).fst l₂).snd) := by
  induction l₁ with
  | nil => intro s l₂; simp [runNorm]
  | cons q rest ih =>
    obtain ⟨ev, ct⟩ := q
    intro s l₂
    simp only [List.cons_append, runNorm, List.append_eq]
    rw [ih]

/-- C10: starting from a fresh normalizer, an `InstructionLineEntity` span is
fully consumed: the entity's open event and every inner event (whose current
tag never re-enters the entity classification) are withheld from downstream
visitors with skip-to-next-event, and on the entity's close a single `Text`
event is emitted in its place, carrying the normalized text chunks joined by
tab characters (empty normalized chunks contribute nothing); the entity's own
closing tag is never forwarded, and the buffer resets. -/
theorem instruction_entity_buffering (names : List (Bytes × Bytes))
    (etag ctag : Bytes) (attrs : List (Bytes × Bytes))
    (inner : List (XmlEvent × CurrentTag))
    (h : ∀ p ∈ inner, p.snd ≠ CurrentTag.instructionLineEntity) :
    runNorm names initNorm
        (((.start etag attrs, .instructionLineEntity) :: inner)
          ++ [(.close ctag, .instructionLineEntity)])
      = (initNorm,
         .nextNode :: ((inner.map fun _ => VisitProc.nextNode)
           ++ [.cont (.text (tabJoinF ((innerTexts inner).map (normalize_text names))))])) := by
  have hopen : normVisit names initNorm (.start etag attrs) .instructionLineEntity
      = ({ in_entity := true, text := [] }, .nextNode) := rfl
  have hclose : ∀ T : Bytes,
      runNorm names { in_entity := true, text := T }
        [(.close ctag, CurrentTag.instructionLineEntity)]
      = ({ in_entity := false, text := [] }, [.cont (.text T)]) := fun T => rfl
  show runNorm names initNorm
      ((.start etag attrs, CurrentTag.instructionLineEntity)
        :: (inner ++ [(.close ctag, CurrentTag.instructionLineEntity)])) = _
  simp only [runNorm, hopen]
  rw [runNorm_append, runNorm_inside names inner [] h, hclose, foldl_tabAppend_nil]
  rfl

/-- C10 witness: the buffering theorem applied to a concrete entity span whose
inner events include element opens/closes and three text chunks (one of them
all-whitespace, contributing no tab). -/
theorem instruction_entity_buffering_witness :
    runNorm [] initNorm
        (((.start (bs "InstructionLineEntity") [], .instructionLineEntity) :: c10Inner)
          ++ [(.close (bs "InstructionLineEntity"), .instructionLineEntity)])
      = (initNorm,
         .nextNode :: ((c10Inner.map fun _ => VisitProc.nextNode)
           ++ [.cont (.text (tabJoinF ((innerTexts c10Inner).map (normalize_text []))))])) :=
  instruction_entity_buffering [] (bs "InstructionLineEntity") (bs "InstructionLineEntity")
    [] c10Inner (by decide)

theorem dropWhile_suffix_eq {α : Type} (p : α → Bool) (l : List α) :
    ∃ pre, l = pre ++ l.dropWhile p ∧ ∀ x ∈ pre, p x = true := by
  induction l with
  | nil => exact ⟨[], rfl, by simp⟩
  | cons a rest ih =>
    by_cases hpa : p a = true
    · obtain ⟨pre, heq, hall⟩ := ih
      refine ⟨a :: pre, ?_, ?_⟩
      · rw [List.dropWhile_cons, if_pos hpa, List.cons_append, ← heq]
      · intro x hx
        rcases List.mem_cons.mp hx with rfl | hx'
        · exact hpa
        · exact hall x hx'
    · refine ⟨[], ?_, by simp⟩
      rw [List.dropWhile_cons, if_neg hpa, List.nil_append]

theorem dropWhile_head_not {α : Type} (p : α → Bool) (l : List α) :
    ∀ x xs, l.dropWhile p = x :: xs → p x = false := by
  induction l with
  | nil => intro x xs h; simp [List.dropWhile] at h
  | cons a rest ih =>
    intro x xs h
    by_cases hpa : p a = true
    · rw [List.dropWhile_cons, if_pos hpa] at h
      exact ih x xs h
    · rw [List.dropWhile_cons, if_neg hpa] at h
      cases h
      simpa using hpa

theorem getLastQ_mem {α : Type} (l : List α) : ∀ b, l.getLast? = some b → b ∈ l := by
  induction l with
  | nil => intro b h; cases h
  | cons a rest ih =>
    intro b h
    cases rest with
    | nil =>
      cases h
      exact List.mem_cons_self _ _
    | cons c r =>
      rw [List.getLast?_cons_cons] at h
      exact List.mem_cons_of_mem _ (ih b h)

theorem remove_old_names_split (d : Nat) (ns : List (Nat × String)) :
    (∃ pre, ns = remove_old_names d ns ++ pre ∧ ∀ x ∈ pre, d ≤ x.fst) ∧
    (∀ q, (remove_old_names d ns).getLast? = some q → q.fst < d) := by
  obtain ⟨pre, heq, hall⟩ := dropWhile_suffix_eq (fun q => decide (d ≤ q.fst)) ns.reverse
  constructor
  · refine ⟨pre.reverse, ?_, ?_⟩
    · have h1 := congrArg List.reverse heq
      rw [List.reverse_reverse, List.reverse_append] at h1
      exact h1
    · intro x hx
      have := hall x (by simpa using hx)
      simpa using this
  · intro q hq
    rw [remove_old_names, List.getLast?_reverse] at hq
    cases hdw : List.dropWhile (fun q => decide (d ≤ q.fst)) ns.reverse with
    | nil => rw [hdw] at hq; cases hq
    | cons x xs =>
      rw [hdw] at hq
      cases hq
      have := dropWhile_head_not (fun q => decide (d ≤ q.fst)) ns.reverse q xs hdw
      simpa using this

theorem chainLt_le_getLast (l : List Nat) :
    List.Chain' (· < ·) l → ∀ x ∈ l, ∀ y, l.getLast? = some y → x ≤ y := by
  induction l with
  | nil => intro _ x hx; cases hx
  | cons a rest ih =>
    intro h x hx y hy
    cases rest with
    | nil =>
      rcases List.mem_cons.mp hx with rfl | hx'
      · cases hy; exact Nat.le_refl _
      · cases hx'
    | cons b rest' =>
      rw [List.chain'_cons] at h
      rw [List.getLast?_cons_cons] at hy
      rcases List.mem_cons.mp hx with rfl | hx'
      · have hb := ih h.2 b (List.mem_cons_self _ _) y hy
        omega
      · exact ih h.2 x hx' y hy

theorem takeWhile_append_all {α : Type} (p : α → Bool) (A : List α) :
    ∀ B : List α, (∀ a ∈ A, p a = true) → (∀ b, B.head? = some b → p b = false) →
      (A ++ B).takeWhile p = A := by
  induction A with
  | nil =>
    intro B _ hB
    cases B with
    | nil => rfl
    | cons b bs =>
      rw [List.nil_append, List.takeWhile_cons, if_neg (by simp [hB b rfl])]
  | cons a A' ih =>
    intro B hA hB
    rw [List.cons_append, List.takeWhile_cons,
      if_pos (hA a (List.mem_cons_self _ _)),
      ih B (fun x hx => hA x (List.mem_cons_of_mem _ hx)) hB]

theorem remove_old_sorted (d : Nat) (ns : List (Nat × String))
    (h : List.Chain' (· < ·) (ns.map Prod.fst)) :
    List.Chain' (· < ·) ((remove_old_names d ns).map Prod.fst) := by
  obtain ⟨⟨pre, heq, _⟩, _⟩ := remove_old_names_split d ns
  rw [heq, List.map_append, List.chain'_append] at h
  exact h.1

theorem remove_old_names_eq_takeWhile (d : Nat) (ns : List (Nat × String))
    (h : List.Chain' (· < ·) (ns.map Prod.fst)) :
    remove_old_names d ns = ns.takeWhile fun q => q.fst < d := by
  obtain ⟨⟨pre, heq, hallpre⟩, hlast⟩ := remove_old_names_split d ns
  have hkept : List.Chain' (· < ·) ((remove_old_names d ns).map Prod.fst) :=
    remove_old_sorted d ns h
  have hallkept : ∀ q ∈ remove_old_names d ns, decide (q.fst < d) = true := by
    intro q hq
    cases hgl : (remove_old_names d ns).getLast? with
    | none =>
      rw [List.getLast?_eq_none_iff] at hgl
      rw [hgl] at hq
      cases hq
    | some lastq =>
      have h1 : q.fst ≤ lastq.fst := by
        refine chainLt_le_getLast _ hkept q.fst (List.mem_map_of_mem _ hq) lastq.fst ?_
        rw [List.getLast?_map, hgl]
        rfl
      have h2 : lastq.fst < d := hlast lastq hgl
      simpa using Nat.lt_of_le_of_lt h1 h2
  have hheadpre : ∀ b, pre.head? = some b → decide (b.fst < d) = false := by
    intro b hb
    have hmem : b ∈ pre := by
      cases pre with
      | nil => cases hb
      | cons x xs => cases hb; exact List.mem_cons_self _ _
    have := hallpre b hmem
    simpa using Nat.not_lt_of_ge this
  conv_rhs => rw [heq]
  rw [takeWhile_append_all _ _ pre hallkept hheadpre]

theorem sorted_after_push (d : Nat) (nm : String) (ns : List (Nat × String))
    (h : List.Chain' (· < ·) (ns.map Prod.fst)) :
    List.Chain' (· < ·) ((remove_old_names d ns ++ [(d, nm)]).map Prod.fst) := by
  obtain ⟨⟨pre, heq, hallpre⟩, hlast⟩ := remove_old_names_split d ns
  rw [List.map_append, List.chain'_append]
  refine ⟨remove_old_sorted d ns h, List.chain'_singleton _, ?_⟩
  intro x hx y hy
  simp only [List.map_cons, List.map_nil, List.head?_cons, Option.mem_def,
    Option.some_inj] at hy
  subst hy
  rw [Option.mem_def, List.getLast?_map] at hx
  cases hgl : (remove_old_names d ns).getLast? with
  | none => rw [hgl] at hx; cases hx
  | some lastq =>
    rw [hgl] at hx
    have hx' : some lastq.fst = some x := hx
    cases hx'
    exact hlast lastq hgl

theorem nameTracker_visit_unchanged (s s' : NTState) (ev : XmlEvent) (ct : CurrentTag)
    (q : VisitProc) (h : nameTrackerVisit s ev ct = .ok (s', q))
    (hev : ∀ txt, ev ≠ XmlEvent.text txt) (hcl : ∀ tag, ev ≠ XmlEvent.close tag) :
    s'.names = s.names := by
  cases ev with
  | text txt => exact absurd rfl (hev txt)
  | close tag => exact absurd rfl (hcl tag)
  | start tag attrs =>
    injection h with hpair
    injection hpair with h1 h2
    subst h1
    rfl
  | eof =>
    injection h with hpair
    injection hpair with h1 h2
    subst h1
    rfl
  | otherEv =>
    injection h with hpair
    injection hpair with h1 h2
    subst h1
    rfl

theorem nameTracker_visit_sorted (s s' : NTState) (ev : XmlEvent) (ct : CurrentTag)
    (q : VisitProc) (h : nameTrackerVisit s ev ct = .ok (s', q))
    (hs : List.Chain' (· < ·) (s.names.map Prod.fst)) :
    List.Chain' (· < ·) (s'.names.map Prod.fst) := by
  cases ev with
  | text txt =>
    cases ct with
    | id =>
      by_cases hg : txt.length ≤ 36
      · have hgv : guidOfText txt = Except.ok txt := by rw [guidOfText, if_pos hg]
        have h0 : nameTrackerVisit s (.text txt) CurrentTag.id
            = Except.ok ({ s with new_id := txt }, VisitProc.cont (XmlEvent.text txt)) := by
          simp only [nameTrackerVisit, hgv]
        rw [h0] at h
        injection h with hpair
        injection hpair with h1 h2
        subst h1
        exact hs
      · have hgv : guidOfText txt = Except.error "GUID didn't fit into array" := by
          rw [guidOfText, if_neg hg]
        have h0 : nameTrackerVisit s (.text txt) CurrentTag.id
            = Except.error "GUID didn't fit into array" := by
          simp only [nameTrackerVisit, hgv]
        rw [h0] at h
        cases h
    | name =>
      injection h with hpair
      injection hpair with h1 h2
      subst h1
      exact sorted_after_push s.depth (String.mk txt) s.names hs
    | mainComment =>
      injection h with hpair
      injection hpair with h1 h2
      subst h1
      exact hs
    | address => injection h with hp; injection hp with h1 h2; subst h1; exact hs
    | toT => injection h with hp; injection hp with h1 h2; subst h1; exact hs
    | fromT => injection h with hp; injection hp with h1 h2; subst h1; exact hs
    | grafcetNodeStep => injection h with hp; injection hp with h1 h2; subst h1; exact hs
    | grafcetOrFork => injection h with hp; injection hp with h1 h2; subst h1; exact hs
    | grafcetOrJunction => injection h with hp; injection hp with h1 h2; subst h1; exact hs
    | grafcetTransition => injection h with hp; injection hp with h1 h2; subst h1; exact hs
    | instructionLine => injection h with hp; injection hp with h1 h2; subst h1; exact hs
    | instructionLineEntity => injection h with hp; injection hp with h1 h2; subst h1; exact hs
    | ladderElements => injection h with hp; injection hp with h1 h2; subst h1; exact hs
    | rungEntity => injection h with hp; injection hp with h1 h2; subst h1; exact hs
    | symbol => injection h with hp; injection hp with h1 h2; subst h1; exact hs
    | other => injection h with hp; injection hp with h1 h2; subst h1; exact hs
    | none => injection h with hp; injection hp with h1 h2; subst h1; exact hs
  | start tag attrs =>
    injection h with hpair
    injection hpair with h1 h2
    subst h1
    exact hs
  | close tag =>
    cases ct with
    | rungEntity => injection h with hp; injection hp with h1 h2; subst h1; exact hs
    | grafcetNodeStep => injection h with hp; injection hp with h1 h2; subst h1; exact hs
    | grafcetOrFork => injection h with hp; injection hp with h1 h2; subst h1; exact hs
    | grafcetOrJunction => injection h with hp; injection hp with h1 h2; subst h1; exact hs
    | grafcetTransition =>
      injection h with hp
      injection hp with h1 h2
      subst h1
      exact remove_old_sorted s.depth s.names hs
    | address => injection h with hp; injection hp with h1 h2; subst h1; exact hs
    | id => injection h with hp; injection hp with h1 h2; subst h1; exact hs
    | toT => injection h with hp; injection hp with h1 h2; subst h1; exact hs
    | fromT => injection h with hp; injection hp with h1 h2; subst h1; exact hs
    | instructionLine => injection h with hp; injection hp with h1 h2; subst h1; exact hs
    | instructionLineEntity => injection h with hp; injection hp with h1 h2; subst h1; exact hs
    | mainComment => injection h with hp; injection hp with h1 h2; subst h1; exact hs
    | name => injection h with hp; injection hp with h1 h2; subst h1; exact hs
    | ladderElements => injection h with hp; injection hp with h1 h2; subst h1; exact hs
    | symbol => injection h with hp; injection hp with h1 h2; subst h1; exact hs
    | other => injection h with hp; injection hp with h1 h2; subst h1; exact hs
    | none => injection h with hp; injection hp with h1 h2; subst h1; exact hs
  | eof =>
    injection h with hpair
    injection hpair with h1 h2
    subst h1
    exact hs
  | otherEv =>
    injection h with hpair
    injection hpair with h1 h2
    subst h1
    exact hs

theorem runNT_sorted (evs : List (XmlEvent × CurrentTag)) :
    ∀ s st : NTState, runNT s evs = .ok st →
      List.Chain' (· < ·) (s.names.map Prod.fst) →
      List.Chain' (· < ·) (st.names.map Prod.fst) := by
  induction evs with
  | nil =>
    intro s st h hs
    cases h
    exact hs
  | cons p rest ih =>
    obtain ⟨ev, ct⟩ := p
    intro s st h hs
    rw [runNT] at h
    cases hv : nameTrackerVisit s ev ct with
    | error e => rw [hv] at h; cases h
    | ok pr =>
      obtain ⟨s1, q⟩ := pr
      rw [hv] at h
      exact ih s1 st h (nameTracker_visit_sorted s s1 ev ct q hv hs)

/-- C9: the Name Context Tracker's stack invariant.  After any run of the
tracker from its initial state, the stack's depths are strictly increasing
from bottom to top (hence non-decreasing), and a Name-classified text event at
the current depth `d` pops exactly the entries with depth ≥ d (the suffix of
the sorted stack) and then pushes `(d, name)`. -/
theorem name_stack_sorted (evs : List (XmlEvent × CurrentTag)) (st : NTState)
    (h : runNT initNT evs = .ok st) :
    List.Chain' (· < ·) (st.names.map Prod.fst) ∧
    (∀ nm st' q, nameTrackerVisit st (.text nm) .name = .ok (st', q) →
      st'.names = (st.names.takeWhile fun e => e.fst < st.depth)
        ++ [(st.depth, String.mk nm)]) := by
  have hsorted : List.Chain' (· < ·) (st.names.map Prod.fst) :=
    runNT_sorted evs initNT st h (by simp [initNT])
  refine ⟨hsorted, ?_⟩
  intro nm st' q hq
  have h0 : nameTrackerVisit st (.text nm) .name
      = .ok ({ st with names := remove_old_names st.depth st.names
          ++ [(st.depth, String.mk nm)] }, .cont (.text nm)) := rfl
  rw [h0] at hq
  injection hq with hpair
  have hst : st' = { st with names := remove_old_names st.depth st.names
      ++ [(st.depth, String.mk nm)] } := congrArg Prod.fst hpair.symm
  rw [hst]
  show remove_old_names st.depth st.names ++ [(st.depth, String.mk nm)] = _
  rw [remove_old_names_eq_takeWhile st.depth st.names hsorted]

/-- C9 witness: the stack invariant and pop-push behaviour at the concrete run
of `c9Events`, whose final stack is [(2, Proj), (3, Aux)]. -/
theorem name_stack_sorted_witness :
    runNT initNT c9Events = .ok c9Final ∧
    (List.Chain' (· < ·) (c9Final.names.map Prod.fst) ∧
     (∀ nm st' q, nameTrackerVisit c9Final (.text nm) .name = .ok (st', q) →
       st'.names = (c9Final.names.takeWhile fun e => e.fst < c9Final.depth)
         ++ [(c9Final.depth, String.mk nm)])) :=
  ⟨by decide, name_stack_sorted c9Events c9Final (by decide)⟩

/-- C2 counterexample: on a document with a populated ladder-diagram subtree,
the transform output still contains parts of that subtree — its opening and
closing tags — so the subtree is not removed in full. -/
theorem ladder_open_close_kept :
    output_visitor c2Doc = .ok c2Out ∧
    XmlEvent.start (bs "LadderElements") [] ∈ c2Out ∧
    XmlEvent.close (bs "LadderElements") ∈ c2Out := by
  refine ⟨by decide, by decide, by decide⟩

/-- C2 amended: while skipping, the elider discards exactly the events whose
current tag differs from the elided classification, and every event whose
current tag equals the elided classification — in particular the subtree's
own opening and closing tags — is forwarded unchanged; sibling elements
outside the subtree pass through untouched. -/
theorem skipTag_boundary_forwarded (st : SkipTagState) (ev ev' : XmlEvent)
    (ct : CurrentTag) (b : Bool)
    (h1 : st.skipping = true) (h2 : ct ≠ st.tag) :
    (skipTagVisit st ev' ct).snd = .nextNode ∧
    (skipTagVisit { skipping := b, tag := CurrentTag.ladderElements } ev
        CurrentTag.ladderElements).snd = .cont ev := by
  constructor
  · rw [skipTagVisit, if_pos ⟨h2, h1⟩]
  · rw [skipTagVisit, if_neg (by simp), if_pos rfl]
    cases ev <;> rfl

/-- C2 witness: the elider drops an inner event while skipping, and forwards
the `LadderElements` closing tag. -/
theorem skipTag_boundary_forwarded_witness :
    (skipTagVisit { skipping := true, tag := CurrentTag.ladderElements }
        (.text (bs "x")) CurrentTag.other).snd = .nextNode ∧
    (skipTagVisit { skipping := true, tag := CurrentTag.ladderElements }
        (.close (bs "LadderElements")) CurrentTag.ladderElements).snd
      = .cont (.close (bs "LadderElements")) :=
  skipTag_boundary_forwarded { skipping := true, tag := CurrentTag.ladderElements }
    (.close (bs "LadderElements")) (.text (bs "x")) CurrentTag.other true rfl (by decide)

/-- C5: the whole transformation is a deterministic function of the input
events — two successful Transform-Pass runs on identical input produce
identical output. -/
theorem transform_deterministic (doc₁ doc₂ o₁ o₂ : List XmlEvent)
    (heq : doc₁ = doc₂)
    (h₁ : output_visitor doc₁ = .ok o₁) (h₂ : output_visitor doc₂ = .ok o₂) :
    o₁ = o₂ := by
  subst heq
  rw [h₁] at h₂
  exact Except.ok.inj h₂

/-- C5 witness: two runs on the concrete `c2Doc` both succeed with the same
output. -/
theorem transform_deterministic_witness :
    output_visitor c2Doc = .ok c2Out ∧ c2Out = c2Out :=
  ⟨by decide, transform_deterministic c2Doc c2Doc c2Out c2Out rfl (by decide) (by decide)⟩

/-- C6 counterexample: running the Transform Pass with the spec-claimed
visitor order (Elider → Interner → Annotator → Normalizer → Sink) is
observably different from the implemented pipeline: on `c6Doc` the claimed
order interns the identifier inside the instruction entity (`==2==`), which
the implemented order never lets the interner see. -/
theorem pipeline_order_differs :
    output_visitor_spec_order c6Doc = .ok c6SpecOut ∧
    output_visitor c6Doc ≠ output_visitor_spec_order c6Doc := by
  refine ⟨by decide, by decide⟩

/-- C6 amended: the Transform Pass runs Substructure Elider → Context
Annotator → Text Normalizer → Identifier Interner → Sink; observably, on
`c6Doc` the identifier outside the entity is interned to `==1==` while the
identifier text inside the entity is buffered raw by the normalizer and
reaches the output un-interned. -/
theorem pipeline_actual_order_run : output_visitor c6Doc = .ok c6ActualOut := by decide

/-- C8 counterexample: a malformed cyclic reference structure — two nodes,
neither with a recorded display name, whose unique links point at each other.
The resolver walk from `a` does not terminate with a name and produces no
structural-violation report: modelled with fuel, it exhausts a 100-step
recursion bound. -/
theorem resolve_cycle_unguarded :
    lookupA cycIds (bs "a") = Option.none ∧
    lookupA cycIds (bs "b") = Option.none ∧
    get_unique_link cycGT (bs "a") = .ok (bs "b") ∧
    get_unique_link cycGT (bs "b") = .ok (bs "a") ∧
    diffId cycIds cycGT 100 (bs "a") = .error "recursion limit exceeded" := by
  refine ⟨rfl, rfl, by decide, by decide, by decide⟩

/-- C8 amended: the ambiguous-neighbor resolution is plain recursion with no
visited-set guard; on a cyclic reference structure among unnamed nodes the
walk never resolves — for every recursion bound the fuel-indexed model fails
by exhaustion rather than terminating or reporting the cycle as a
structural-invariant violation. -/
theorem resolve_cycle_diverges (ids : List (Bytes × String)) (gt : GTState) (a b : Bytes)
    (ha : lookupA ids a = Option.none) (hb : lookupA ids b = Option.none)
    (hab : get_unique_link gt a = .ok b) (hba : get_unique_link gt b = .ok a) :
    ∀ n, diffId ids gt n a = .error "recursion limit exceeded" := by
  have key : ∀ n, diffId ids gt n a = .error "recursion limit exceeded" ∧
      diffId ids gt n b = .error "recursion limit exceeded" := by
    intro n
    induction n with
    | zero => exact ⟨rfl, rfl⟩
    | succ n ih =>
      constructor
      · rw [diffId, ha, hab]
        exact ih.2
      · rw [diffId, hb, hba]
        exact ih.1
  exact fun n => (key n).1

/-- C8 witness: the divergence theorem applied to the concrete cyclic state at
recursion bound 7. -/
theorem resolve_cycle_diverges_witness :
    diffId cycIds cycGT 7 (bs "a") = .error "recursion limit exceeded" :=
  resolve_cycle_diverges cycIds cycGT (bs "a") (bs "b") rfl rfl (by decide) (by decide) 7

end PlcDiff